import Mathlib

/-!
Shallow embedding of the snapshot-reconciliation core of `monarch_feeder`
(`monarch_feeder/computer_use_demo/models.py`): the `Transaction` value
type, the load-time validators `validate_date` (strptime `%Y-%m-%d`) and
`validate_transactions` (duplicate detection), and the reconciler
`get_transaction_log_diff` that groups two snapshots by `(date, amount)`
and emits the per-group count surplus from the new snapshot.

Python's `float` amounts are modelled as `Rat`: the code performs no
arithmetic on amounts, only equality tests and hashing, so any type with
decidable equality is a faithful model of the non-exceptional values.
-/

/-- The `Transaction` pydantic model: four data fields. -/
structure Transaction where
  date : String
  user_account : String
  counterparty_account : String
  amount : Rat
deriving DecidableEq, Repr

/-- The identity tuple `(date, user_account, counterparty_account, amount)`
used by `Transaction.__hash__` and pydantic equality. -/
def identityTuple (t : Transaction) : String × String × String × Rat :=
  (t.date, t.user_account, t.counterparty_account, t.amount)

/-- The grouping key `(transaction.date, transaction.amount)` used by
`get_transaction_log_diff`. -/
def txKey (t : Transaction) : String × Rat := (t.date, t.amount)

/-- Boolean key test, used to express the members of one group. -/
def byKey (k : String × Rat) (t : Transaction) : Bool := decide (txKey t = k)

/-- One step of building the `defaultdict(list)` grouping: append `t` to the
entry of its key, creating the entry at the end on first sight (Python dicts
preserve insertion order). -/
def addToGroup (gs : List ((String × Rat) × List Transaction)) (t : Transaction) :
    List ((String × Rat) × List Transaction) :=
  match gs with
  | [] => [(txKey t, [t])]
  | (k, g) :: rest =>
    if k = txKey t then (k, g ++ [t]) :: rest else (k, g) :: addToGroup rest t

/-- The `for transaction in log: groups[key].append(transaction)` loop. -/
def groupByKey (l : List Transaction) : List ((String × Rat) × List Transaction) :=
  l.foldl addToGroup []

/-- Lookup `old_groups.get(key, [])`: first entry with the key, else `[]`. -/
def lookupGroup (gs : List ((String × Rat) × List Transaction)) (k : String × Rat) :
    List Transaction :=
  match gs with
  | [] => []
  | (k', g) :: rest => if k' = k then g else lookupGroup rest k

/-- The reconciler `get_transaction_log_diff(new_log, old_log)`: iterate the new grouping in
insertion order; when `new_count > old_count`, emit the first
`new_count - old_count` transactions of the new group. -/
def get_transaction_log_diff (new_log old_log : List Transaction) : List Transaction :=
  (groupByKey new_log).flatMap (fun kg =>
    let old_group := lookupGroup (groupByKey old_log) kg.1
    if old_group.length < kg.2.length then
      kg.2.take (kg.2.length - old_group.length)
    else [])

/-- Keys in order of first appearance (the iteration order of the new
grouping). -/
def firstSeen : List (String × Rat) → List (String × Rat)
  | [] => []
  | k :: ks => k :: (firstSeen ks).filter (fun x => decide (x ≠ k))

/-- Reference reconciliation algorithm, stated from the spec's words:
partition both logs into `(date, amount)` groups preserving order of first
appearance, and for each key of the new grouping (first-seen order) with
`new_count > old_count` emit the first `new_count - old_count` transactions
of the new group in their original relative order. -/
def diffSpec (new_log old_log : List Transaction) : List Transaction :=
  (firstSeen (new_log.map txKey)).flatMap (fun k =>
    let newGroup := new_log.filter (byKey k)
    let oldGroup := old_log.filter (byKey k)
    if oldGroup.length < newGroup.length then
      newGroup.take (newGroup.length - oldGroup.length)
    else [])

/-- Validator `TransactionLog.validate_transactions`: `len(v) != len(set(v))` raises;
the size of a Python set of Transactions is the number of distinct elements
under full-field equality (pydantic `__eq__` compares all four fields, the
identity tuple). -/
def validate_transactions (v : List Transaction) : Option (List Transaction) :=
  if v.length ≠ v.dedup.length then none else some v

/-- Numeric value of a decimal digit character. -/
def digitVal (c : Char) : Nat := c.toNat - 48

/-- Gregorian leap-year rule used by `datetime.date`. -/
def isLeap (y : Nat) : Bool := (y % 4 == 0 && y % 100 != 0) || y % 400 == 0

/-- Length of a month as validated by the `datetime.date` constructor. -/
def daysInMonth (y m : Nat) : Nat :=
  if m = 2 then (if isLeap y then 29 else 28)
  else if m = 4 ∨ m = 6 ∨ m = 9 ∨ m = 11 then 30
  else 31

/-- The `%m` token of `_strptime`: regex `1[0-2]|0[1-9]|[1-9]`, alternatives
tried in order, returning the month value and the unconsumed characters. -/
def monthTok : List Char → Option (Nat × List Char)
  | c1 :: c2 :: rest =>
    if c1 = '1' ∧ (c2 = '0' ∨ c2 = '1' ∨ c2 = '2') then some (10 + digitVal c2, rest)
    else if c1 = '0' ∧ c2.isDigit ∧ c2 ≠ '0' then some (digitVal c2, rest)
    else if c1.isDigit ∧ c1 ≠ '0' then some (digitVal c1, c2 :: rest)
    else none
  | [c1] => if c1.isDigit ∧ c1 ≠ '0' then some (digitVal c1, []) else none
  | [] => none

/-- The `%d` token of `_strptime`: regex `3[01]|[12]\d|0[1-9]|[1-9]`. -/
def dayTok : List Char → Option (Nat × List Char)
  | c1 :: c2 :: rest =>
    if c1 = '3' ∧ (c2 = '0' ∨ c2 = '1') then some (30 + digitVal c2, rest)
    else if (c1 = '1' ∨ c1 = '2') ∧ c2.isDigit then some (10 * digitVal c1 + digitVal c2, rest)
    else if c1 = '0' ∧ c2.isDigit ∧ c2 ≠ '0' then some (digitVal c2, rest)
    else if c1.isDigit ∧ c1 ≠ '0' then some (digitVal c1, c2 :: rest)
    else none
  | [c1] => if c1.isDigit ∧ c1 ≠ '0' then some (digitVal c1, []) else none
  | [] => none

/-- The tail of `%Y-%m-%d` matching after the day token: the whole string
must have been consumed (`found.end()` check), then `datetime.date(y, m, d)`
validates `MINYEAR <= y` and `d <= days_in_month(y, m)`. -/
def dayEnd (y m : Nat) (dt : Option (Nat × List Char)) : Option (Nat × Nat × Nat) :=
  match dt with
  | some (dd, rest3) =>
    if rest3 = [] then
      if 1 ≤ y ∧ dd ≤ daysInMonth y m then some (y, m, dd) else none
    else none
  | none => none

/-- The tail of `%Y-%m-%d` matching after the month token: the literal `-`
must match the next character, then the `%d` token runs. -/
def dashDayEnd (y : Nat) (mo : Option (Nat × List Char)) : Option (Nat × Nat × Nat) :=
  match mo with
  | some (m, f :: rest2) => if f = '-' then dayEnd y m (dayTok rest2) else none
  | some (_, []) => none
  | none => none

/-- Model of `datetime.datetime.strptime(v, "%Y-%m-%d")` on the character list,
restricted to ASCII input: `%Y` is four digits, then a literal `-`, then the
`%m` token, a literal `-`, the `%d` token, the full-consumption check and
the `datetime.date` constructor checks. -/
def strptimeChars : List Char → Option (Nat × Nat × Nat)
  | a :: b :: c :: d :: e :: rest =>
    if a.isDigit ∧ b.isDigit ∧ c.isDigit ∧ d.isDigit ∧ e = '-' then
      dashDayEnd (1000 * digitVal a + 100 * digitVal b + 10 * digitVal c + digitVal d)
        (monthTok rest)
    else none
  | _ => none

/-- Model of `datetime.datetime.strptime(v, "%Y-%m-%d")` on the string. -/
def strptimeYMD (s : String) : Option (Nat × Nat × Nat) :=
  strptimeChars s.toList

/-- Validator `Transaction.validate_date`: returns the string unchanged when
`strptime` succeeds, and raises (`none`) when it throws `ValueError`. -/
def validate_date (v : String) : Option String :=
  match strptimeYMD v with
  | some _ => some v
  | none => none

/-- Strings of the exact ten-character shape `DDDD-DD-DD` (digits and
dashes) — the literal reading of the `YYYY-MM-DD` format. -/
def shapeYMD (s : String) : Bool :=
  match s.toList with
  | [y1, y2, y3, y4, h1, m1, m2, h2, d1, d2] =>
    y1.isDigit && y2.isDigit && y3.isDigit && y4.isDigit && h1 = '-' && h2 = '-' &&
      m1.isDigit && m2.isDigit && d1.isDigit && d2.isDigit
  | _ => false

/-- The year, month and day denoted by a `shapeYMD` string. -/
def ymdOf (s : String) : Nat × Nat × Nat :=
  match s.toList with
  | [y1, y2, y3, y4, _, m1, m2, _, d1, d2] =>
    (1000 * digitVal y1 + 100 * digitVal y2 + 10 * digitVal y3 + digitVal y4,
     10 * digitVal m1 + digitVal m2,
     10 * digitVal d1 + digitVal d2)
  | _ => (0, 0, 0)

/-- A valid calendar date: month 1-12, day within the month, year at least 1
(`datetime.MINYEAR`). -/
def calendarOK (y m d : Nat) : Bool :=
  1 ≤ m && m ≤ 12 && 1 ≤ d && d ≤ daysInMonth y m && 1 ≤ y

/-- Characterized form of the insertion-order grouping: first-seen keys,
each paired with the filter of its group. -/
def groupSpec (l : List Transaction) : List ((String × Rat) × List Transaction) :=
  (firstSeen (l.map txKey)).map (fun k => (k, l.filter (byKey k)))

/-- The transactions emitted for one key of the new grouping. -/
def emitGroup (new_log old_log : List Transaction) (k : String × Rat) : List Transaction :=
  let newGroup := new_log.filter (byKey k)
  let oldGroup := old_log.filter (byKey k)
  if oldGroup.length < newGroup.length then
    newGroup.take (newGroup.length - oldGroup.length)
  else []

theorem mem_firstSeen {ks : List (String × Rat)} {k : String × Rat} :
    k ∈ firstSeen ks ↔ k ∈ ks := by
  induction ks with
  | nil => simp [firstSeen]
  | cons a ks ih =>
    by_cases h : k = a <;> simp [firstSeen, List.mem_filter, ih, h]

theorem firstSeen_nodup (ks : List (String × Rat)) : (firstSeen ks).Nodup := by
  induction ks with
  | nil => simp [firstSeen]
  | cons a ks ih =>
    rw [firstSeen, List.nodup_cons]
    refine ⟨fun hmem => ?_, ih.filter _⟩
    have := (List.mem_filter.mp hmem).2
    simp at this

theorem firstSeen_append (ks : List (String × Rat)) (k : String × Rat) :
    firstSeen (ks ++ [k]) = if k ∈ ks then firstSeen ks else firstSeen ks ++ [k] := by
  induction ks with
  | nil => simp [firstSeen]
  | cons a ks ih =>
    rw [List.cons_append, firstSeen, firstSeen, ih]
    by_cases hk : k ∈ ks
    · simp [hk, List.mem_cons]
    · by_cases ha : k = a
      · subst ha
        simp [hk, List.filter_append]
      · simp [hk, ha, List.filter_append, Ne.symm ha]

theorem filter_byKey_eq_nil {l : List Transaction} {k : String × Rat}
    (h : k ∉ l.map txKey) : l.filter (byKey k) = [] := by
  rw [List.filter_eq_nil_iff]
  intro t ht hkey
  exact h (by
    rw [byKey, decide_eq_true_eq] at hkey
    exact hkey ▸ List.mem_map_of_mem txKey ht)

theorem addToGroup_of_not_mem {gs : List ((String × Rat) × List Transaction)}
    {t : Transaction} (h : txKey t ∉ gs.map Prod.fst) :
    addToGroup gs t = gs ++ [(txKey t, [t])] := by
  induction gs with
  | nil => rfl
  | cons p gs ih =>
    obtain ⟨k, g⟩ := p
    rw [List.map_cons, List.mem_cons] at h
    push_neg at h
    rw [addToGroup, if_neg (fun he => h.1 he.symm), ih h.2, List.cons_append]

theorem addToGroup_map_of_mem {ks : List (String × Rat)}
    {F : String × Rat → List Transaction} {t : Transaction}
    (hnd : ks.Nodup) (hmem : txKey t ∈ ks) :
    addToGroup (ks.map fun k => (k, F k)) t
      = ks.map (fun k => (k, F k ++ if txKey t = k then [t] else [])) := by
  induction ks with
  | nil => cases hmem
  | cons a ks ih =>
    rw [List.map_cons, List.map_cons, addToGroup]
    by_cases ha : a = txKey t
    · rw [if_pos ha]
      have hnotin : txKey t ∉ ks := by
        rw [← ha]; exact (List.nodup_cons.mp hnd).1
      rw [if_pos ha.symm]
      congr 1
      apply List.map_congr_left
      intro k hk
      rw [if_neg (fun he => hnotin (by rw [he]; exact hk))]
      simp
    · rw [if_neg ha]
      have hmem' : txKey t ∈ ks := by
        rcases List.mem_cons.mp hmem with h | h
        · exact absurd h.symm ha
        · exact h
      rw [ih (List.nodup_cons.mp hnd).2 hmem', if_neg (fun he => ha he.symm)]
      simp

theorem groupByKey_eq (l : List Transaction) : groupByKey l = groupSpec l := by
  induction l using List.reverseRecOn with
  | nil => rfl
  | append_singleton l t ih =>
    have h1 : groupByKey (l ++ [t]) = addToGroup (groupByKey l) t := by
      rw [groupByKey, groupByKey, List.foldl_append]
      rfl
    rw [h1, ih, groupSpec, groupSpec, List.map_append, List.map_cons, List.map_nil,
      firstSeen_append]
    by_cases hk : txKey t ∈ l.map txKey
    · rw [if_pos hk]
      rw [addToGroup_map_of_mem (firstSeen_nodup _) (mem_firstSeen.mpr hk)]
      apply List.map_congr_left
      intro k _
      rw [List.filter_append]
      congr 1
      by_cases he : txKey t = k
      · simp [byKey, he]
      · simp [byKey, he]
    · rw [if_neg hk]
      have hfst : txKey t ∉
          ((firstSeen (l.map txKey)).map fun k => (k, l.filter (byKey k))).map Prod.fst := by
        rw [List.map_map]
        simpa using fun h => hk (mem_firstSeen.mp h)
      rw [addToGroup_of_not_mem hfst, List.map_append, List.map_cons, List.map_nil]
      congr 1
      · apply List.map_congr_left
        intro k hkmem
        have hne : ¬ txKey t = k :=
          fun he => hk (mem_firstSeen.mp (by rw [he]; exact hkmem))
        simp [List.filter_append, byKey, hne]
      · rw [List.filter_append, filter_byKey_eq_nil hk]
        simp [byKey]

theorem lookupGroup_map (ks : List (String × Rat))
    (F : String × Rat → List Transaction) (k : String × Rat) :
    lookupGroup (ks.map fun x => (x, F x)) k = if k ∈ ks then F k else [] := by
  induction ks with
  | nil => rfl
  | cons a ks ih =>
    rw [List.map_cons, lookupGroup]
    by_cases h : a = k
    · subst h
      simp
    · rw [if_neg h, ih]
      have hka : ¬ k = a := fun he => h he.symm
      by_cases hk : k ∈ ks <;> simp [hk, hka]

theorem lookupGroup_groupByKey (old_log : List Transaction) (k : String × Rat) :
    lookupGroup (groupByKey old_log) k = old_log.filter (byKey k) := by
  rw [groupByKey_eq, groupSpec, lookupGroup_map]
  by_cases h : k ∈ firstSeen (old_log.map txKey)
  · rw [if_pos h]
  · rw [if_neg h, filter_byKey_eq_nil (fun hm => h (mem_firstSeen.mpr hm))]

theorem diff_eq_spec (new_log old_log : List Transaction) :
    get_transaction_log_diff new_log old_log = diffSpec new_log old_log := by
  rw [get_transaction_log_diff, groupByKey_eq, groupSpec, List.flatMap_map, diffSpec]
  simp only [lookupGroup_groupByKey]

theorem diffSpec_eq_flatMap (new_log old_log : List Transaction) :
    diffSpec new_log old_log
      = (firstSeen (new_log.map txKey)).flatMap (emitGroup new_log old_log) := rfl

theorem take_sublist_of_le {m n : Nat} (h : m ≤ n) (l : List Transaction) :
    (l.take m).Sublist (l.take n) := by
  have : l.take m = (l.take n).take m := by
    rw [List.take_take, Nat.min_eq_left h]
  rw [this]
  exact List.take_sublist m (l.take n)

theorem flatMap_sublist {ks : List (String × Rat)}
    {f g : String × Rat → List Transaction}
    (h : ∀ k ∈ ks, (f k).Sublist (g k)) :
    (ks.flatMap f).Sublist (ks.flatMap g) := by
  induction ks with
  | nil => exact List.Sublist.refl _
  | cons a ks ih =>
    rw [List.flatMap_cons, List.flatMap_cons]
    exact (h a (List.mem_cons_self a ks)).append
      (ih fun k hk => h k (List.mem_cons_of_mem a hk))

theorem emitGroup_sublist_filter (new_log old_log : List Transaction) (k : String × Rat) :
    (emitGroup new_log old_log k).Sublist (new_log.filter (byKey k)) := by
  rw [emitGroup]
  by_cases h : (old_log.filter (byKey k)).length < (new_log.filter (byKey k)).length
  · simp only [if_pos h]
    exact List.take_sublist _ _
  · simp only [if_neg h]
    exact List.nil_sublist _

theorem mem_emitGroup {new_log old_log : List Transaction} {k : String × Rat}
    {t : Transaction} (h : t ∈ emitGroup new_log old_log k) :
    t ∈ new_log ∧ txKey t = k := by
  have hf : t ∈ new_log.filter (byKey k) :=
    (emitGroup_sublist_filter new_log old_log k).subset h
  have := List.mem_filter.mp hf
  exact ⟨this.1, by have := this.2; rwa [byKey, decide_eq_true_eq] at this⟩

theorem flatMap_congr_mem {ks : List (String × Rat)}
    {f g : String × Rat → List Transaction} (h : ∀ k ∈ ks, f k = g k) :
    ks.flatMap f = ks.flatMap g := by
  induction ks with
  | nil => rfl
  | cons a ks ih =>
    rw [List.flatMap_cons, List.flatMap_cons, h a (List.mem_cons_self a ks),
      ih fun k hk => h k (List.mem_cons_of_mem a hk)]

theorem flatMap_filter_perm {l : List Transaction} {ks : List (String × Rat)}
    (hnd : ks.Nodup) (hcov : ∀ t ∈ l, txKey t ∈ ks) :
    (ks.flatMap fun k => l.filter (byKey k)).Perm l := by
  induction ks generalizing l with
  | nil =>
    have : l = [] := List.eq_nil_iff_forall_not_mem.mpr fun t ht => by
      cases hcov t ht
    simp [this]
  | cons a ks ih =>
    have hanot : a ∉ ks := (List.nodup_cons.mp hnd).1
    have htail : ks.flatMap (fun k => l.filter (byKey k))
        = ks.flatMap (fun k => (l.filter (fun t => !byKey a t)).filter (byKey k)) := by
      apply flatMap_congr_mem
      intro k hk
      rw [List.filter_filter]
      apply (List.filter_congr ?_).symm
      intro t _
      by_cases hbk : byKey k t = true
      · have hka : txKey t = k := by rwa [byKey, decide_eq_true_eq] at hbk
        have : byKey a t = false := by
          rw [byKey, decide_eq_false_iff_not]
          intro he
          exact hanot (by rw [← hka, he] at hk; exact hk)
        simp [hbk, this]
      · have hfalse : byKey k t = false := by
          cases hcase : byKey k t
          · rfl
          · exact absurd hcase hbk
        simp [hfalse]
    have ihp : (ks.flatMap fun k => (l.filter (fun t => !byKey a t)).filter (byKey k)).Perm
        (l.filter (fun t => !byKey a t)) := by
      apply ih (List.nodup_cons.mp hnd).2
      intro t ht
      have hmem := List.mem_filter.mp ht
      rcases List.mem_cons.mp (hcov t hmem.1) with h | h
      · exfalso
        have := hmem.2
        rw [byKey] at this
        simp [h] at this
      · exact h
    rw [List.flatMap_cons, htail]
    exact ((ihp.append_left (l.filter (byKey a))).trans
      (by
        have := List.filter_append_perm (byKey a) l
        exact this))

theorem diff_sublist_groups (new_log old_log : List Transaction) :
    (get_transaction_log_diff new_log old_log).Sublist
      ((firstSeen (new_log.map txKey)).flatMap (fun k => new_log.filter (byKey k))) := by
  rw [diff_eq_spec, diffSpec_eq_flatMap]
  exact flatMap_sublist fun k _ => emitGroup_sublist_filter new_log old_log k

theorem groups_perm_self (new_log : List Transaction) :
    ((firstSeen (new_log.map txKey)).flatMap (fun k => new_log.filter (byKey k))).Perm
      new_log :=
  flatMap_filter_perm (firstSeen_nodup _)
    (fun _ ht => mem_firstSeen.mpr (List.mem_map_of_mem txKey ht))

theorem emitGroup_length (new_log old_log : List Transaction) (k : String × Rat) :
    (emitGroup new_log old_log k).length
      = new_log.countP (byKey k) - old_log.countP (byKey k) := by
  rw [emitGroup, List.countP_eq_length_filter, List.countP_eq_length_filter]
  by_cases h : (old_log.filter (byKey k)).length < (new_log.filter (byKey k)).length
  · simp only [if_pos h, List.length_take]
    omega
  · simp only [if_neg h, List.length_nil]
    omega

theorem filter_emitGroup (new_log old_log : List Transaction) (k k' : String × Rat) :
    (emitGroup new_log old_log k').filter (byKey k)
      = if k' = k then emitGroup new_log old_log k' else [] := by
  by_cases h : k' = k
  · subst h
    rw [if_pos rfl]
    apply List.filter_eq_self.mpr
    intro t ht
    rw [byKey, decide_eq_true_eq]
    exact (mem_emitGroup ht).2
  · rw [if_neg h]
    apply List.filter_eq_nil_iff.mpr
    intro t ht hb
    rw [byKey, decide_eq_true_eq] at hb
    exact h (((mem_emitGroup ht).2).symm.trans hb)

theorem flatMap_ite_single_length {ks : List (String × Rat)} {k : String × Rat}
    (hnd : ks.Nodup) (f : String × Rat → List Transaction) :
    (ks.flatMap fun k' => if k' = k then f k' else []).length
      = if k ∈ ks then (f k).length else 0 := by
  induction ks with
  | nil => simp
  | cons a ks ih =>
    rw [List.flatMap_cons, List.length_append, ih (List.nodup_cons.mp hnd).2]
    by_cases ha : a = k
    · subst ha
      have hnotin : a ∉ ks := (List.nodup_cons.mp hnd).1
      simp [hnotin]
    · have hka : ¬ k = a := fun he => ha he.symm
      by_cases hk : k ∈ ks <;> simp [ha, hka, hk]

theorem diff_countP (new_log old_log : List Transaction) (k : String × Rat) :
    ((get_transaction_log_diff new_log old_log).filter (byKey k)).length
      = new_log.countP (byKey k) - old_log.countP (byKey k) := by
  rw [diff_eq_spec, diffSpec_eq_flatMap, List.filter_flatMap]
  rw [flatMap_congr_mem fun k' _ => filter_emitGroup new_log old_log k k']
  rw [flatMap_ite_single_length (firstSeen_nodup _)]
  by_cases hk : k ∈ firstSeen (new_log.map txKey)
  · rw [if_pos hk, emitGroup_length]
  · rw [if_neg hk]
    have : new_log.countP (byKey k) = 0 := by
      rw [List.countP_eq_length_filter,
        filter_byKey_eq_nil (fun hm => hk (mem_firstSeen.mpr hm)), List.length_nil]
    omega

theorem emitGroup_append_old (new_log old_log : List Transaction)
    (t : Transaction) (k : String × Rat) :
    (emitGroup new_log (old_log ++ [t]) k).Sublist (emitGroup new_log old_log k) := by
  rw [emitGroup, emitGroup, List.filter_append]
  cases hb : byKey k t
  · have hnil : List.filter (byKey k) [t] = [] := by simp [hb]
    rw [hnil, List.append_nil]
  · have hone : List.filter (byKey k) [t] = [t] := by simp [hb]
    rw [hone, List.length_append, List.length_singleton]
    by_cases h : (old_log.filter (byKey k)).length + 1 < (new_log.filter (byKey k)).length
    · rw [if_pos (by omega)]
      have h2 : (old_log.filter (byKey k)).length < (new_log.filter (byKey k)).length := by
        omega
      rw [if_pos h2]
      exact take_sublist_of_le (by omega) _
    · rw [if_neg (by omega)]
      by_cases h2 : (old_log.filter (byKey k)).length < (new_log.filter (byKey k)).length
      · rw [if_pos h2]
        exact List.nil_sublist _
      · rw [if_neg h2]

theorem emitGroup_nil_old (new_log : List Transaction) (k : String × Rat) :
    emitGroup new_log [] k = new_log.filter (byKey k) := by
  rw [emitGroup]
  simp only [List.filter_nil, List.length_nil]
  by_cases h : 0 < (new_log.filter (byKey k)).length
  · rw [if_pos h, Nat.sub_zero, List.take_length]
  · rw [if_neg h]
    have h0 : (new_log.filter (byKey k)).length = 0 := by omega
    exact (List.length_eq_zero.mp h0).symm

theorem diff_nil_old_perm (l : List Transaction) :
    (get_transaction_log_diff l []).Perm l := by
  rw [diff_eq_spec, diffSpec_eq_flatMap,
    flatMap_congr_mem fun k _ => emitGroup_nil_old l k]
  exact groups_perm_self l

theorem identityTuple_inj {a b : Transaction} :
    identityTuple a = identityTuple b ↔ a = b := by
  constructor
  · intro h
    cases a
    cases b
    simp only [identityTuple, Prod.mk.injEq] at h
    obtain ⟨h1, h2, h3, h4⟩ := h
    simp [h1, h2, h3, h4]
  · intro h
    rw [h]

/-- C1: for every pair of transaction lists, `get_transaction_log_diff`
equals the reference algorithm: partition both logs into `(date, amount)`
groups in first-seen-key order, and for each key of the new grouping with
`new_count > old_count` emit the first `new_count - old_count` transactions
of the new group in original relative order. -/
theorem claim_c1_diff_matches_reference (new_log old_log : List Transaction) :
    get_transaction_log_diff new_log old_log = diffSpec new_log old_log :=
  diff_eq_spec new_log old_log

/-- C2 counterexample: against an empty old snapshot the output is not the
new snapshot in its original order — groups are regrouped by key, so a log
whose keys interleave comes back reordered. -/
theorem claim_c2_counterexample :
    get_transaction_log_diff
        [⟨"2024-01-01", "a", "x", 50⟩, ⟨"2024-01-01", "b", "x", 10⟩,
          ⟨"2024-01-01", "c", "x", 50⟩] []
      ≠ [⟨"2024-01-01", "a", "x", 50⟩, ⟨"2024-01-01", "b", "x", 10⟩,
          ⟨"2024-01-01", "c", "x", 50⟩] := by decide

/-- C2 amended: `diff(L, [])` returns exactly the transactions of `L` — the
same multiset, i.e. a permutation — but in first-seen-key group order rather
than always in `L`'s original order. -/
theorem claim_c2_amended (l : List Transaction) :
    (get_transaction_log_diff l []).Perm l :=
  diff_nil_old_perm l

/-- C3 counterexample: on Scenario A the code does not return the second of
the two 2024-01-01/$50 entries; head-of-group selection emits the first. -/
theorem claim_c3_counterexample :
    get_transaction_log_diff
        [⟨"2024-01-01", "acct1", "cp1", 50⟩, ⟨"2024-01-01", "acct2", "cp2", 50⟩,
          ⟨"2024-01-02", "acct1", "cp1", 10⟩]
        [⟨"2024-01-01", "acct1", "cp1", 50⟩]
      ≠ [⟨"2024-01-01", "acct2", "cp2", 50⟩, ⟨"2024-01-02", "acct1", "cp1", 10⟩] := by
  decide

/-- C3 amended: on Scenario A the diff returns exactly two transactions in
order — the FIRST of the two 2024-01-01/$50 entries of `new_log`, then the
2024-01-02/$10 entry. -/
theorem claim_c3_amended :
    get_transaction_log_diff
        [⟨"2024-01-01", "acct1", "cp1", 50⟩, ⟨"2024-01-01", "acct2", "cp2", 50⟩,
          ⟨"2024-01-02", "acct1", "cp1", 10⟩]
        [⟨"2024-01-01", "acct1", "cp1", 50⟩]
      = [⟨"2024-01-01", "acct1", "cp1", 50⟩, ⟨"2024-01-02", "acct1", "cp1", 10⟩] := by
  decide

/-- C4 counterexample: permuting `new_log` can change WHICH transaction of a
group is selected, so the outputs are not always equal as multisets. -/
theorem claim_c4_counterexample :
    ([⟨"2024-01-01", "a2", "x", 50⟩, ⟨"2024-01-01", "a1", "x", 50⟩] : List Transaction).Perm
        [⟨"2024-01-01", "a1", "x", 50⟩, ⟨"2024-01-01", "a2", "x", 50⟩] ∧
      ¬ (get_transaction_log_diff
            [⟨"2024-01-01", "a2", "x", 50⟩, ⟨"2024-01-01", "a1", "x", 50⟩]
            [⟨"2024-01-01", "z", "x", 50⟩]).Perm
          (get_transaction_log_diff
            [⟨"2024-01-01", "a1", "x", 50⟩, ⟨"2024-01-01", "a2", "x", 50⟩]
            [⟨"2024-01-01", "z", "x", 50⟩]) := by
  refine ⟨by decide, ?_⟩
  decide

/-- C4 amended: permuting `new_log` never changes how many transactions are
emitted from each `(date, amount)` group (hence not the emitted key
multiset or the output length), though it can change which individual
transactions within a group are selected. -/
theorem claim_c4_amended (new_log new_log' old_log : List Transaction)
    (h : new_log.Perm new_log') (k : String × Rat) :
    ((get_transaction_log_diff new_log' old_log).filter (byKey k)).length
      = ((get_transaction_log_diff new_log old_log).filter (byKey k)).length := by
  rw [diff_countP, diff_countP, h.countP_eq (byKey k)]

/-- Witness for C4 amended at a concrete permuted pair. -/
theorem claim_c4_witness :
    ([⟨"2024-01-01", "a1", "x", 50⟩, ⟨"2024-01-01", "a2", "x", 50⟩] : List Transaction).Perm
        [⟨"2024-01-01", "a2", "x", 50⟩, ⟨"2024-01-01", "a1", "x", 50⟩] ∧
      ((get_transaction_log_diff
          [⟨"2024-01-01", "a2", "x", 50⟩, ⟨"2024-01-01", "a1", "x", 50⟩]
          []).filter (byKey ("2024-01-01", 50))).length
        = ((get_transaction_log_diff
            [⟨"2024-01-01", "a1", "x", 50⟩, ⟨"2024-01-01", "a2", "x", 50⟩]
            []).filter (byKey ("2024-01-01", 50))).length :=
  ⟨by decide, claim_c4_amended _ _ _ (by decide) _⟩

/-- C5: every transaction in the output of the diff is a value present in
`new_log`; the function never fabricates or mutates transaction data. -/
theorem claim_c5_output_from_new (new_log old_log : List Transaction)
    (t : Transaction) (h : t ∈ get_transaction_log_diff new_log old_log) :
    t ∈ new_log :=
  (groups_perm_self new_log).subset ((diff_sublist_groups new_log old_log).subset h)

/-- Witness for C5 at a concrete input. -/
theorem claim_c5_witness :
    (⟨"2024-01-01", "a", "x", 50⟩ : Transaction) ∈
        get_transaction_log_diff [⟨"2024-01-01", "a", "x", 50⟩] [] ∧
      (⟨"2024-01-01", "a", "x", 50⟩ : Transaction) ∈
        [(⟨"2024-01-01", "a", "x", 50⟩ : Transaction)] :=
  ⟨by decide, claim_c5_output_from_new [⟨"2024-01-01", "a", "x", 50⟩] []
    ⟨"2024-01-01", "a", "x", 50⟩ (by decide)⟩

/-- C6: the diff is a total function: on every pair of inputs, including
empty lists and keys absent from either grouping, it returns a well-defined
(possibly empty) list, never longer than `new_log`. In this embedding
totality is structural — the definition uses only grouping, lookup with
default, take and concatenation, none of which can fail. -/
theorem claim_c6_total (new_log old_log : List Transaction) :
    get_transaction_log_diff [] old_log = [] ∧
      (get_transaction_log_diff new_log old_log).length ≤ new_log.length :=
  ⟨rfl, le_trans (diff_sublist_groups new_log old_log).length_le
    (groups_perm_self new_log).length_eq.le⟩

/-- C9: the diff is antitone in the old snapshot: appending a transaction to
`old_log` yields an output that is a sublist of the previous output — every
emitted occurrence was already emitted, and the output never grows. -/
theorem claim_c9_antitone_old (new_log old_log : List Transaction) (t : Transaction) :
    (get_transaction_log_diff new_log (old_log ++ [t])).Sublist
      (get_transaction_log_diff new_log old_log) := by
  rw [diff_eq_spec, diff_eq_spec, diffSpec_eq_flatMap, diffSpec_eq_flatMap]
  exact flatMap_sublist fun k _ => emitGroup_append_old new_log old_log t k

/-- C10: the diff preserves the TransactionLog no-duplicates invariant: if
`new_log` has no two transactions equal under the identity tuple, neither
does the output. -/
theorem claim_c10_preserves_nodup (new_log old_log : List Transaction)
    (h : new_log.Pairwise (fun a b => identityTuple a ≠ identityTuple b)) :
    (get_transaction_log_diff new_log old_log).Pairwise
      (fun a b => identityTuple a ≠ identityTuple b) := by
  have hnd : new_log.Nodup :=
    List.Pairwise.imp (fun hab he => hab (by rw [he])) h
  have hout : (get_transaction_log_diff new_log old_log).Nodup :=
    (diff_sublist_groups new_log old_log).nodup
      ((groups_perm_self new_log).nodup_iff.mpr hnd)
  exact List.Pairwise.imp (fun hab he => hab (identityTuple_inj.mp he)) hout

/-- Witness for C10 at a concrete input. -/
theorem claim_c10_witness :
    ([⟨"2024-01-01", "a", "x", 50⟩, ⟨"2024-01-01", "b", "x", 50⟩] : List Transaction).Pairwise
        (fun a b => identityTuple a ≠ identityTuple b) ∧
      (get_transaction_log_diff
          [⟨"2024-01-01", "a", "x", 50⟩, ⟨"2024-01-01", "b", "x", 50⟩]
          []).Pairwise (fun a b => identityTuple a ≠ identityTuple b) :=
  ⟨by decide, claim_c10_preserves_nodup _ _ (by decide)⟩

theorem validate_transactions_none_iff_not_nodup (v : List Transaction) :
    validate_transactions v = none ↔ ¬ v.Nodup := by
  rw [validate_transactions]
  by_cases h : v.length ≠ v.dedup.length
  · rw [if_pos h]
    have hnn : ¬ v.Nodup := fun hnd => h (by rw [hnd.dedup])
    simp [hnn]
  · rw [if_neg h]
    push_neg at h
    have hnd : v.Nodup := by
      rw [← List.dedup_eq_self]
      exact (List.dedup_sublist v).eq_of_length h.symm
    simp [hnd]

theorem not_nodup_iff_exists_get (v : List Transaction) :
    ¬ v.Nodup ↔ ∃ i j : Fin v.length, i < j ∧ v.get i = v.get j := by
  constructor
  · intro h
    by_contra hc
    push_neg at hc
    exact h (List.pairwise_iff_get.mpr fun i j hij => hc i j hij)
  · rintro ⟨i, j, hij, heq⟩ hnd
    exact (List.pairwise_iff_get.mp hnd i j hij) heq

/-- C8: constructing a TransactionLog fails with a validation error if and
only if the transaction list contains two elements (at distinct positions)
equal under the identity tuple (date, user_account, counterparty_account,
amount); every successfully constructed log therefore satisfies the
no-duplicates invariant. -/
theorem claim_c8_duplicate_validation (v : List Transaction) :
    validate_transactions v = none ↔
      ∃ i j : Fin v.length, i < j ∧ identityTuple (v.get i) = identityTuple (v.get j) := by
  rw [validate_transactions_none_iff_not_nodup, not_nodup_iff_exists_get]
  constructor
  · rintro ⟨i, j, hij, heq⟩
    exact ⟨i, j, hij, by rw [heq]⟩
  · rintro ⟨i, j, hij, heq⟩
    exact ⟨i, j, hij, identityTuple_inj.mp heq⟩

theorem digit_enum (c : Char) (h : c.isDigit = true) :
    c = '0' ∨ c = '1' ∨ c = '2' ∨ c = '3' ∨ c = '4' ∨ c = '5' ∨ c = '6' ∨ c = '7' ∨
      c = '8' ∨ c = '9' := by
  simp only [Char.isDigit, Bool.and_eq_true, decide_eq_true_eq] at h
  obtain ⟨h1, h2⟩ := h
  have g1 : (48 : Nat) ≤ c.val.toNat := h1
  have g2 : c.val.toNat ≤ (57 : Nat) := h2
  have hd : c.val.toNat = 48 ∨ c.val.toNat = 49 ∨ c.val.toNat = 50 ∨ c.val.toNat = 51 ∨
      c.val.toNat = 52 ∨ c.val.toNat = 53 ∨ c.val.toNat = 54 ∨ c.val.toNat = 55 ∨
      c.val.toNat = 56 ∨ c.val.toNat = 57 := by omega
  rcases hd with h | h | h | h | h | h | h | h | h | h
  · exact Or.inl (Char.ext (UInt32.ext h))
  · exact Or.inr (Or.inl (Char.ext (UInt32.ext h)))
  · exact Or.inr (Or.inr (Or.inl (Char.ext (UInt32.ext h))))
  · exact Or.inr (Or.inr (Or.inr (Or.inl (Char.ext (UInt32.ext h)))))
  · exact Or.inr (Or.inr (Or.inr (Or.inr (Or.inl (Char.ext (UInt32.ext h))))))
  · exact Or.inr (Or.inr (Or.inr (Or.inr (Or.inr (Or.inl (Char.ext (UInt32.ext h)))))))
  · exact Or.inr (Or.inr (Or.inr (Or.inr (Or.inr (Or.inr (Or.inl (Char.ext (UInt32.ext h))))))))
  · exact Or.inr (Or.inr (Or.inr (Or.inr (Or.inr (Or.inr (Or.inr (Or.inl (Char.ext
      (UInt32.ext h)))))))))
  · exact Or.inr (Or.inr (Or.inr (Or.inr (Or.inr (Or.inr (Or.inr (Or.inr (Or.inl (Char.ext
      (UInt32.ext h))))))))))
  · exact Or.inr (Or.inr (Or.inr (Or.inr (Or.inr (Or.inr (Or.inr (Or.inr (Or.inr (Char.ext
      (UInt32.ext h))))))))))

theorem monthTok_char (m1 m2 : Char) (cs : List Char)
    (h1 : m1.isDigit = true) (h2 : m2.isDigit = true) :
    monthTok (m1 :: m2 :: cs)
      = if 1 ≤ 10 * digitVal m1 + digitVal m2 ∧ 10 * digitVal m1 + digitVal m2 ≤ 12
        then some (10 * digitVal m1 + digitVal m2, cs)
        else if 10 * digitVal m1 + digitVal m2 = 0 then none
        else some (digitVal m1, m2 :: cs) := by
  rcases digit_enum m1 h1 with h|h|h|h|h|h|h|h|h|h <;> subst h <;>
    rcases digit_enum m2 h2 with h|h|h|h|h|h|h|h|h|h <;> subst h <;>
      simp [monthTok, digitVal]

theorem dayTok_char (d1 d2 : Char) (cs : List Char)
    (h1 : d1.isDigit = true) (h2 : d2.isDigit = true) :
    dayTok (d1 :: d2 :: cs)
      = if 1 ≤ 10 * digitVal d1 + digitVal d2 ∧ 10 * digitVal d1 + digitVal d2 ≤ 31
        then some (10 * digitVal d1 + digitVal d2, cs)
        else if 10 * digitVal d1 + digitVal d2 = 0 then none
        else some (digitVal d1, d2 :: cs) := by
  rcases digit_enum d1 h1 with h|h|h|h|h|h|h|h|h|h <;> subst h <;>
    rcases digit_enum d2 h2 with h|h|h|h|h|h|h|h|h|h <;> subst h <;>
      simp [dayTok, digitVal]

theorem daysInMonth_le_31 (y m : Nat) : daysInMonth y m ≤ 31 := by
  rw [daysInMonth]
  split_ifs <;> omega

theorem shape_toList {s : String} (hs : shapeYMD s = true) :
    ∃ y1 y2 y3 y4 m1 m2 d1 d2,
      s.toList = [y1, y2, y3, y4, '-', m1, m2, '-', d1, d2] ∧
        y1.isDigit = true ∧ y2.isDigit = true ∧ y3.isDigit = true ∧ y4.isDigit = true ∧
        m1.isDigit = true ∧ m2.isDigit = true ∧ d1.isDigit = true ∧ d2.isDigit = true := by
  unfold shapeYMD at hs
  split at hs
  · next y1 y2 y3 y4 h1 m1 m2 h2 d1 d2 heq =>
    simp only [Bool.and_eq_true, decide_eq_true_eq] at hs
    obtain ⟨⟨⟨⟨⟨⟨⟨⟨⟨hy1, hy2⟩, hy3⟩, hy4⟩, hh1⟩, hh2⟩, hm1⟩, hm2⟩, hd1⟩, hd2⟩ := hs
    subst hh1
    subst hh2
    exact ⟨y1, y2, y3, y4, m1, m2, d1, d2, heq, hy1, hy2, hy3, hy4, hm1, hm2, hd1, hd2⟩
  · exact absurd hs (by simp)

theorem digit_ne_dash {c : Char} (h : c.isDigit = true) : ¬ c = '-' := by
  intro he
  rw [he] at h
  exact absurd h (by decide)

theorem validate_date_eq_some_iff (s : String) :
    validate_date s = some s ↔ strptimeYMD s ≠ none := by
  rw [validate_date]
  cases strptimeYMD s <;> simp

/-- C7 counterexample: the claim says construction fails for EVERY date
string not in valid `YYYY-MM-DD` format, but `strptime("%Y-%m-%d")` also
accepts single-digit month and day, so `2024-1-5` is accepted although it is
not of the ten-character `YYYY-MM-DD` shape. -/
theorem claim_c7_counterexample :
    validate_date "2024-1-5" = some "2024-1-5" ∧ shapeYMD "2024-1-5" = false := by
  decide

/-- C7 amended: for every string of the ten-character digit shape
`YYYY-MM-DD`, constructing a Transaction succeeds (leaving the date
unchanged) iff the string denotes a valid calendar date (month 1-12, day
within the month with leap handling, year at least 1), and fails with a
validation error otherwise; but not every accepted string has that shape —
strptime also accepts single-digit month/day variants such as `2024-1-5`. -/
theorem claim_c7_amended (s : String) (hs : shapeYMD s = true) :
    validate_date s = some s ↔
      calendarOK (ymdOf s).1 (ymdOf s).2.1 (ymdOf s).2.2 = true := by
  obtain ⟨y1, y2, y3, y4, m1, m2, d1, d2, hls, hy1, hy2, hy3, hy4, hm1, hm2, hd1, hd2⟩ :=
    shape_toList hs
  have hymd : ymdOf s =
      (1000 * digitVal y1 + 100 * digitVal y2 + 10 * digitVal y3 + digitVal y4,
        10 * digitVal m1 + digitVal m2, 10 * digitVal d1 + digitVal d2) := by
    unfold ymdOf
    rw [hls]
  rw [hymd, validate_date_eq_some_iff, strptimeYMD, hls]
  rw [strptimeChars]
  rw [if_pos ⟨hy1, hy2, hy3, hy4, rfl⟩]
  rw [monthTok_char m1 m2 ('-' :: d1 :: d2 :: []) hm1 hm2]
  by_cases hM : 1 ≤ 10 * digitVal m1 + digitVal m2 ∧ 10 * digitVal m1 + digitVal m2 ≤ 12
  · rw [if_pos hM]
    rw [dashDayEnd, if_pos rfl]
    rw [dayTok_char d1 d2 [] hd1 hd2]
    by_cases hD : 1 ≤ 10 * digitVal d1 + digitVal d2 ∧ 10 * digitVal d1 + digitVal d2 ≤ 31
    · rw [if_pos hD]
      rw [dayEnd, if_pos rfl]
      by_cases hY : 1 ≤ 1000 * digitVal y1 + 100 * digitVal y2 + 10 * digitVal y3 + digitVal y4 ∧
          10 * digitVal d1 + digitVal d2 ≤
            daysInMonth (1000 * digitVal y1 + 100 * digitVal y2 + 10 * digitVal y3 + digitVal y4)
              (10 * digitVal m1 + digitVal m2)
      · rw [if_pos hY]
        simp [calendarOK, hM.1, hM.2, hD.1, hY.1, hY.2]
      · rw [if_neg hY]
        simp only [ne_eq, not_true_eq_false, false_iff, calendarOK, Bool.and_eq_true,
          decide_eq_true_eq, not_and]
        intro h1 h2
        exact hY ⟨h2, h1.2⟩
    · push_neg at hD
      by_cases hD0 : 10 * digitVal d1 + digitVal d2 = 0
      · rw [if_neg (by omega), if_pos hD0]
        rw [dayEnd]
        simp [calendarOK]
        omega
      · rw [if_neg (by omega), if_neg hD0]
        rw [dayEnd]
        have h31 := daysInMonth_le_31
          (1000 * digitVal y1 + 100 * digitVal y2 + 10 * digitVal y3 + digitVal y4)
          (10 * digitVal m1 + digitVal m2)
        simp [calendarOK]
        omega
  · push_neg at hM
    by_cases hM0 : 10 * digitVal m1 + digitVal m2 = 0
    · rw [if_neg (by omega), if_pos hM0]
      rw [dashDayEnd]
      simp [calendarOK]
      omega
    · rw [if_neg (by omega), if_neg hM0]
      rw [dashDayEnd, if_neg (digit_ne_dash hm2)]
      simp [calendarOK]
      omega

/-- Witness for C7 amended at the concrete leap date `2024-02-29`. -/
theorem claim_c7_witness :
    shapeYMD "2024-02-29" = true ∧
      (validate_date "2024-02-29" = some "2024-02-29" ↔
        calendarOK (ymdOf "2024-02-29").1 (ymdOf "2024-02-29").2.1
          (ymdOf "2024-02-29").2.2 = true) :=
  ⟨by decide, claim_c7_amended "2024-02-29" (by decide)⟩
